import Mathlib

/-!
# Verification of the `cumi` HTTP client (Go) — shallow embedding

This file embeds the execution-relevant parts of the repository
(`client.go`, `utils.go`, `request.go`, `response.go`, `config.go`) as
executable Lean definitions and settles the frozen claims about them.

Modelling conventions:
* Go `int` status codes and counters are `Int`; list indices are `Nat`.
* Arbitrary Go closures (middleware hooks, the transport, the codecs, the
  retry predicate) are modelled by oracles: per attempt, the outcome each
  callback would produce when invoked.  Hooks may mutate the request or
  response in Go; only their error outcome is observable to the control
  flow modelled here, so they are embedded as error-outcome functions.
* Side effects that do not influence control flow (debug logging, the
  `onError` notification hook, wall-clock timestamps) are dropped;
  `time.Sleep` calls are counted in an execution trace.
-/

namespace Cumi

/-- `ResultState` from client.go:60-66.  `SuccessState` is `iota` zero,
hence the zero value of the type. -/
inductive ResultState where
  | SuccessState
  | ErrorState
  | UnknownState
  deriving DecidableEq, Repr

/-- Go `error` values as they flow through `execute`.  The wrapping
constructors correspond to the `fmt.Errorf("...: %w", err)` wrappings in
client.go; `msg` is any unwrapped error produced by a collaborator
(transport, hook body, codec). -/
inductive GoError where
  | msg (s : String)
  | beforeMiddleware (e : GoError)
  | bodyRead (e : GoError)
  | afterMiddleware (e : GoError)
  | unmarshalSuccess (e : GoError)
  deriving DecidableEq, Repr

/-- The fields of `Response` (response.go:12-29) that the execution engine
reads or writes.  `hasHttpResp` models `Response.Response != nil`; body
bytes are abstract `Nat`s.  Default field values are the Go zero values of
a freshly allocated `&Response{...}` (client.go:709-714): in particular
`state` is `SuccessState` (zero of `ResultState`) and `statusCode` is 0. -/
structure Resp where
  hasHttpResp : Bool := false
  statusCode : Int := 0
  body : List Nat := []
  size : Int := 0
  state : ResultState := .SuccessState
  err : Option GoError := none
  deriving DecidableEq, Repr

/-- `Response.IsSuccess` (response.go:58). -/
def Resp.IsSuccess (r : Resp) : Bool := r.state = .SuccessState

/-- `Response.IsError` (response.go:63). -/
def Resp.IsError (r : Resp) : Bool := r.state = .ErrorState

/-- `Response.ResultState` (response.go:83). -/
def Resp.resultState (r : Resp) : ResultState := r.state

/-- `defaultResultChecker` (utils.go:9-17). -/
def defaultResultChecker (resp : Resp) : ResultState :=
  if 200 ≤ resp.statusCode ∧ resp.statusCode < 300 then .SuccessState
  else if 400 ≤ resp.statusCode then .ErrorState
  else .UnknownState

/-- The fields of `Client` (client.go:20-45) and of the `Request` being
executed (request.go:14-38) that `execute` reads.  Hook slices are
represented by their length; the hooks' outcomes come from the per-attempt
oracle.  `retryCondition` receives the possibly-nil response exactly as the
Go `RetryConditionFunc` does.  `hasSuccessResult`, `hasErrorResult` and
`hasCommonErrorResult` model the `!= nil` tests on `req.successResult`,
`req.errorResult` and `c.commonErrorResult`. -/
structure ExecConfig where
  retryCount : Int
  nBefore : Nat
  nAfter : Nat
  retryCondition : Option (Option Resp → Option GoError → Bool)
  resultChecker : Resp → ResultState
  hasSuccessResult : Bool
  hasErrorResult : Bool
  hasCommonErrorResult : Bool

/-- `shouldRetry` (utils.go:65-80). -/
def shouldRetry (c : ExecConfig) (resp : Option Resp) (err : Option GoError) : Bool :=
  match c.retryCondition with
  | some cond => cond resp err
  | none =>
    if err.isSome then true
    else
      match resp with
      | some r => decide (500 ≤ r.statusCode) || decide (r.statusCode = 429)
      | none => false

/-- `unmarshalResponse` (utils.go:83-97): an empty body returns `nil`
without invoking any codec; otherwise the JSON or XML codec runs (the
choice by Content-Type sniffing does not affect control flow) and the
oracle supplies its outcome. -/
def unmarshalResponse (body : List Nat) (decodeOutcome : Option GoError) : Option GoError :=
  if body = [] then none else decodeOutcome

/-- Everything one attempt of `execute` observes from its collaborators:
the outcome of `prepareRequest`, of each before/after middleware (by
index), of `httpClient.Do`, of the body read, and of the codec runs. -/
structure AttemptBehavior where
  prepare : Option GoError
  beforeHook : Nat → Option GoError
  transport : Option GoError
  hasBody : Bool
  readBody : Except GoError (List Nat)
  statusCode : Int
  afterHook : Nat → Option GoError
  successDecode : Option GoError
  errorDecode : Option GoError

/-- Trace deltas produced by a single attempt (hook indices invoked, in
order; whether the transport / classifier / codecs ran; sleep count). -/
structure AttemptDelta where
  beforeCalls : List Nat := []
  sent : Bool := false
  afterCalls : List Nat := []
  classified : Bool := false
  successDecoded : Bool := false
  errorDecoded : Bool := false
  sleeps : Nat := 0
  deriving DecidableEq, Repr

/-- Observable events of a whole `execute` call.  List entries are tagged
with the attempt index (0-based, matching the Go loop variable). -/
structure Trace where
  prepares : List Nat := []
  beforeCalls : List (Nat × Nat) := []
  sends : List Nat := []
  afterCalls : List (Nat × Nat) := []
  classifies : List Nat := []
  successDecodes : List Nat := []
  errorDecodes : List Nat := []
  sleeps : Nat := 0
  deriving DecidableEq, Repr

def applyDelta (tr : Trace) (attempt : Nat) (d : AttemptDelta) : Trace :=
  { prepares := tr.prepares ++ [attempt]
    beforeCalls := tr.beforeCalls ++ d.beforeCalls.map (fun i => (attempt, i))
    sends := tr.sends ++ (if d.sent then [attempt] else [])
    afterCalls := tr.afterCalls ++ d.afterCalls.map (fun i => (attempt, i))
    classifies := tr.classifies ++ (if d.classified then [attempt] else [])
    successDecodes := tr.successDecodes ++ (if d.successDecoded then [attempt] else [])
    errorDecodes := tr.errorDecodes ++ (if d.errorDecoded then [attempt] else [])
    sleeps := tr.sleeps + d.sleeps }

/-- The before-request middleware loop (client.go:697-701): hooks run in
registration order starting at index `i`; the first error stops the loop.
`k` is the number of hooks not yet visited.  Returns the indices invoked
and the first error, if any. -/
def runBeforeHooks (f : Nat → Option GoError) : Nat → Nat → List Nat × Option GoError
  | 0, _ => ([], none)
  | k + 1, i =>
    match f i with
    | some e => ([i], some e)
    | none =>
      let r := runBeforeHooks f k (i + 1)
      (i :: r.1, r.2)

/-- The after-response middleware loop (client.go:756-766), embedded
exactly as written: on a hook error the code sets `resp.Err` and then
either sleeps and `continue`s or `break`s — both statements bind to THIS
inner `for ... range c.afterResponse` loop, so under the retry guard the
loop sleeps and proceeds to the NEXT hook of the same attempt, and
otherwise it merely stops running hooks.  `guard` is the closure
`attempt < maxAttempts-1 && c.shouldRetry(resp, resp.Err)`.  Returns the
final response, the indices invoked, and the number of sleeps. -/
def runAfterHooks (guard : Resp → Option GoError → Bool)
    (f : Nat → Option GoError) : Nat → Nat → Resp → Resp × List Nat × Nat
  | 0, _, resp => (resp, [], 0)
  | k + 1, i, resp =>
    match f i with
    | none =>
      let r := runAfterHooks guard f k (i + 1) resp
      (r.1, i :: r.2.1, r.2.2)
    | some e =>
      let resp1 : Resp := { resp with err := some (.afterMiddleware e) }
      if guard resp1 resp1.err then
        -- time.Sleep(c.retryInterval); continue   (continues the hook loop)
        let r := runAfterHooks guard f k (i + 1) resp1
        (r.1, i :: r.2.1, r.2.2 + 1)
      else
        (resp1, [i], 0)  -- break   (breaks the hook loop)

/-- Outcome of one iteration of the attempt loop: `abort` is an early
`return nil, err` (prepare failure or before-hook failure); `retry` slept
and `continue`s the attempt loop; `finish` is `break`. -/
inductive AttemptOutcome where
  | abort (e : GoError)
  | retry (resp : Resp)
  | finish (resp : Resp)
  deriving Repr

/-- The tail of an attempt after a transport success whose body read (if
any) succeeded, client.go:745-799: copy the status information, run the
after-response middlewares, classify and auto-decode when no error is
set, and take the final retry decision.  `resp1` is the response after
the body read; `canRetry` is `attempt < maxAttempts-1`. -/
def afterBodyOk (c : ExecConfig) (b : AttemptBehavior) (canRetry : Bool)
    (beforeCalls : List Nat) (resp1 : Resp) : AttemptOutcome × AttemptDelta :=
  -- copy status information (httpResp != nil on this path)
  let resp2 : Resp := { resp1 with statusCode := b.statusCode }
  -- after-response middlewares (inner-loop continue/break semantics)
  let guard : Resp → Option GoError → Bool :=
    fun r e => canRetry && shouldRetry c (some r) e
  let after := runAfterHooks guard b.afterHook c.nAfter 0 resp2
  let resp3 := after.1
  -- if resp.Err == nil { classify and auto-decode }
  let decoded : Resp × Bool × Bool × Bool :=
    if resp3.err = none then
      let st := c.resultChecker resp3
      let resp4 : Resp := { resp3 with state := st }
      if st = .SuccessState ∧ c.hasSuccessResult then
        match unmarshalResponse resp4.body b.successDecode with
        | some e => ({ resp4 with err := some (.unmarshalSuccess e) }, true, true, false)
        | none => (resp4, true, true, false)
      else if st = .ErrorState then
        if c.hasErrorResult then
          (resp4, true, false, true)  -- decode outcome discarded
        else if c.hasCommonErrorResult then
          (resp4, true, false, true)  -- decode outcome discarded
        else (resp4, true, false, false)
      else (resp4, true, false, false)
    else (resp3, false, false, false)
  let resp5 := decoded.1
  let delta : AttemptDelta :=
    { beforeCalls := beforeCalls, sent := true, afterCalls := after.2.1
      classified := decoded.2.1, successDecoded := decoded.2.2.1
      errorDecoded := decoded.2.2.2, sleeps := after.2.2 }
  -- final retry decision of the attempt loop
  if canRetry && shouldRetry c (some resp5) resp5.err then
    (.retry resp5, { delta with sleeps := delta.sleeps + 1 })
  else
    (.finish resp5, delta)

/-- One iteration of the attempt loop of `execute` (client.go:684-800).
`canRetry` is `attempt < maxAttempts-1`. -/
def runAttempt (c : ExecConfig) (b : AttemptBehavior) (canRetry : Bool) :
    AttemptOutcome × AttemptDelta :=
  -- httpReq, err := c.prepareRequest(req); if err != nil { return nil, err }
  match b.prepare with
  | some e => (.abort e, {})
  | none =>
    -- before-request middlewares; first error returns
    -- nil, fmt.Errorf("before request middleware error: %w", err)
    let before := runBeforeHooks b.beforeHook c.nBefore 0
    match before.2 with
    | some e => (.abort (.beforeMiddleware e), { beforeCalls := before.1 })
    | none =>
      -- httpResp, err := c.httpClient.Do(httpReq)
      match b.transport with
      | some e =>
        -- resp carries a nil *http.Response and only Err set
        let resp : Resp := { err := some e }
        if canRetry && shouldRetry c (some resp) (some e) then
          (.retry resp, { beforeCalls := before.1, sent := true, sleeps := 1 })
        else
          (.finish resp, { beforeCalls := before.1, sent := true })
      | none =>
        let resp0 : Resp := { hasHttpResp := true }
        -- if httpResp.Body != nil { read it fully }
        if b.hasBody then
          match b.readBody with
          | .error e =>
            -- resp.Err = fmt.Errorf("failed to read response body: %w", err)
            let resp1 : Resp := { resp0 with err := some (.bodyRead e) }
            if canRetry && shouldRetry c (some resp1) resp1.err then
              (.retry resp1, { beforeCalls := before.1, sent := true, sleeps := 1 })
            else
              (.finish resp1, { beforeCalls := before.1, sent := true })
          | .ok bytes =>
            afterBodyOk c b canRetry before.1
              { resp0 with body := bytes, size := (bytes.length : Int) }
        else
          afterBodyOk c b canRetry before.1 resp0

/-- How the attempt loop of `execute` ended: an early `return nil, err`,
a `break` with the last response, or — when `maxAttempts ≤ 0` — without
ever running an iteration (so both `resp` and `lastErr` stay nil). -/
inductive LoopOut where
  | earlyReturn (e : GoError)
  | finished (resp : Resp)
  | noAttempt
  deriving Repr

/-- The attempt loop `for attempt := 0; attempt < maxAttempts; attempt++`
(client.go:684-800).  `fuel` is the number of loop iterations still
allowed, i.e. `maxAttempts - attempt`; the guard `attempt < maxAttempts`
is `0 < fuel` and `attempt < maxAttempts-1` is `1 < fuel` (equivalently
`0 < fuel - 1`, passed to `runAttempt` as `canRetry`). -/
def executeLoop (c : ExecConfig) (oracle : Nat → AttemptBehavior) :
    Nat → Nat → Trace → LoopOut × Trace
  | 0, _, tr => (.noAttempt, tr)
  | fuel + 1, attempt, tr =>
    let step := runAttempt c (oracle attempt) (decide (0 < fuel))
    let tr1 := applyDelta tr attempt step.2
    match step.1 with
    | .abort e => (.earlyReturn e, tr1)
    | .finish resp => (.finished resp, tr1)
    | .retry _ => executeLoop c oracle fuel (attempt + 1) tr1

/-- Result of `execute`: the returned `(*Response, error)` pair, or the
nil-pointer dereference that `return resp, resp.Err` (client.go:811)
performs when the loop never assigned `resp`. -/
inductive ExecResult where
  | panicked
  | ret (resp : Option Resp) (err : Option GoError)
  deriving Repr

/-- `maxAttempts := c.retryCount + 1` (client.go:683). -/
def maxAttempts (c : ExecConfig) : Int := c.retryCount + 1

/-- `execute` (client.go:679-812).  After the loop, the `onError` hook is
a pure notification (client.go:803-805) and is not modelled; then
`if resp == nil && lastErr != nil` returns `nil, lastErr` — a state that
is unreachable, since `lastErr` is only ever assigned inside a loop
iteration, which always assigns `resp` first — and finally
`return resp, resp.Err`, which dereferences a nil `resp` when the loop
body never ran (i.e. when `maxAttempts ≤ 0`). -/
def execute (c : ExecConfig) (oracle : Nat → AttemptBehavior) : ExecResult × Trace :=
  let out := executeLoop c oracle (maxAttempts c).toNat 0 {}
  match out.1 with
  | .earlyReturn e => (.ret none (some e), out.2)
  | .finished resp => (.ret (some resp) resp.err, out.2)
  | .noAttempt => (.panicked, out.2)

/-! ## Concrete configurations used by counterexamples and witnesses -/

/-- An attempt in which every collaborator succeeds: prepare ok, no hook
errors, transport delivers a 200 response with a two-byte body. -/
def okBehavior : AttemptBehavior :=
  { prepare := none, beforeHook := fun _ => none, transport := none,
    hasBody := true, readBody := .ok [1, 2], statusCode := 200,
    afterHook := fun _ => none, successDecode := none, errorDecode := none }

/-- Client with one retry, no before-hooks, two after-hooks, and a retry
predicate that always answers true. -/
def cfgAfterBug : ExecConfig :=
  { retryCount := 1, nBefore := 0, nAfter := 2,
    retryCondition := some (fun _ _ => true),
    resultChecker := defaultResultChecker,
    hasSuccessResult := false, hasErrorResult := false,
    hasCommonErrorResult := false }

/-- Oracle for the after-hook scenario: on attempt 0 the first after-hook
returns an error and the second one succeeds; attempt 1 is clean. -/
def oracleAfterBug : Nat → AttemptBehavior
  | 0 => { okBehavior with
           afterHook := fun i => if i = 0 then some (.msg "afterfail") else none }
  | _ => okBehavior

/-- A client configured through `SetRetryCount(-1)` (client.go:482-485
stores any int without clamping). -/
def cfgNegRetry : ExecConfig :=
  { retryCount := -1, nBefore := 0, nAfter := 0,
    retryCondition := none,
    resultChecker := defaultResultChecker,
    hasSuccessResult := false, hasErrorResult := false,
    hasCommonErrorResult := false }

/-! ## C8 — default classifier -/

/-- C8: the default classifier maps every response with status code in
200–299 to Success, every status code ≥ 400 to Error, and every status
code in 100–199 or 300–399 to Unknown. -/
theorem claim_C8 (r : Resp) :
    (200 ≤ r.statusCode ∧ r.statusCode ≤ 299 → defaultResultChecker r = .SuccessState) ∧
    (400 ≤ r.statusCode → defaultResultChecker r = .ErrorState) ∧
    ((100 ≤ r.statusCode ∧ r.statusCode ≤ 199) ∨ (300 ≤ r.statusCode ∧ r.statusCode ≤ 399) →
      defaultResultChecker r = .UnknownState) := by
  unfold defaultResultChecker
  refine ⟨fun h => ?_, fun h => ?_, fun h => ?_⟩
  · rw [if_pos ⟨h.1, by omega⟩]
  · rw [if_neg (by omega), if_pos h]
  · rw [if_neg (by omega), if_neg (by omega)]

/-- Witness for C8 at status codes 250, 404 and 302. -/
theorem claim_C8_witness :
    defaultResultChecker { statusCode := 250 } = .SuccessState ∧
    defaultResultChecker { statusCode := 404 } = .ErrorState ∧
    defaultResultChecker { statusCode := 302 } = .UnknownState :=
  ⟨(claim_C8 { statusCode := 250 }).1 (by decide),
   (claim_C8 { statusCode := 404 }).2.1 (by decide),
   (claim_C8 { statusCode := 302 }).2.2 (Or.inr (by decide))⟩

/-! ## C1 — after-hook failure handling

The claim states that after the first failing after-response hook the
subsequent after-hooks are not run for that attempt.  The code disagrees:
in client.go:760-763 the `time.Sleep; continue` executed when the retry
guard holds binds to the inner `for ... range c.afterResponse` loop, so
the loop sleeps and proceeds to the NEXT after-hook of the same attempt
(and the retry decision at client.go:791 then sleeps a second time).  The
identical guard/sleep/continue pattern at the transport (client.go:721-724)
and body-read (client.go:735-738) failure sites sits directly in the
attempt loop, where `continue` starts the next attempt; the spec describes
that intended behavior, making the inner-loop binding a slip. -/

/-- C1: at the failing input (retryCount 1, two after-hooks, hook 0 of
attempt 0 fails, retry predicate always true) the trace shows hook (0,1)
running after hook (0,0) failed — the subsequent after-hook of the same
attempt is NOT skipped — and the interval is slept twice although only
one retry separates the two attempts. -/
theorem claim_C1_bug :
    (oracleAfterBug 0).afterHook 0 = some (.msg "afterfail") ∧
    (execute cfgAfterBug oracleAfterBug).2.afterCalls = [(0, 0), (0, 1), (1, 0), (1, 1)] ∧
    (execute cfgAfterBug oracleAfterBug).2.sleeps = 2 ∧
    (execute cfgAfterBug oracleAfterBug).2.prepares = [0, 1] := by
  refine ⟨rfl, ?_, ?_, ?_⟩ <;> rfl

/-! ## C2 — Execute never panics -/

/-- C2 counterexample: with `SetRetryCount(-1)` (stored unclamped,
client.go:482-485) `maxAttempts` is 0, the attempt loop never runs, both
`resp` and `lastErr` stay nil, and `return resp, resp.Err`
(client.go:811) dereferences the nil `resp` — a panic not raised by any
Must* wrapper. -/
theorem claim_C2_counterexample :
    (execute cfgNegRetry (fun _ => okBehavior)).1 = .panicked := rfl

/-- With `canRetry = false` (last allowed attempt) `runAttempt` never
takes the retry edge. -/
theorem runAttempt_no_retry_of_not_canRetry (c : ExecConfig) (b : AttemptBehavior)
    (resp : Resp) :
    (runAttempt c b false).1 ≠ .retry resp := by
  intro h
  unfold runAttempt afterBodyOk at h
  simp only [Bool.false_and, Bool.false_eq_true, if_false] at h
  repeat' split at h
  all_goals simp_all

/-- The attempt loop performs at least one iteration when its budget is
positive, hence ends by `break` or by an early return. -/
theorem executeLoop_ne_noAttempt (c : ExecConfig) (oracle : Nat → AttemptBehavior) :
    ∀ fuel attempt tr, 0 < fuel →
      (executeLoop c oracle fuel attempt tr).1 ≠ .noAttempt := by
  intro fuel
  induction fuel with
  | zero => intro _ _ h; omega
  | succ n ih =>
    intro attempt tr _
    unfold executeLoop
    cases hstep : (runAttempt c (oracle attempt) (decide (0 < n))).1 with
    | abort e => simp [hstep]
    | finish resp => simp [hstep]
    | retry resp =>
      simp only [hstep]
      rcases Nat.eq_zero_or_pos n with hn | hn
      · subst hn
        exact absurd hstep (by simpa using
          runAttempt_no_retry_of_not_canRetry c (oracle attempt) resp)
      · exact ih (attempt + 1) _ hn

/-- C2 (amended): for every client configuration whose retry count is
non-negative and every request, `execute` returns a (Response, error)
pair and never reaches the nil dereference; only the Must* wrappers
convert a returned error into an abort. -/
theorem claim_C2 (c : ExecConfig) (oracle : Nat → AttemptBehavior)
    (h : 0 ≤ c.retryCount) :
    ∃ resp err, (execute c oracle).1 = .ret resp err := by
  have hfuel : 0 < (maxAttempts c).toNat := by
    unfold maxAttempts; omega
  unfold execute
  cases hout : (executeLoop c oracle (maxAttempts c).toNat 0 {}).1 with
  | earlyReturn e => exact ⟨none, some e, by simp [hout]⟩
  | finished resp => exact ⟨some resp, resp.err, by simp [hout]⟩
  | noAttempt => exact absurd hout (executeLoop_ne_noAttempt c oracle _ 0 {} hfuel)

/-- Witness for C2 at a concrete configuration with retry count 1. -/
theorem claim_C2_witness :
    (0 : Int) ≤ cfgAfterBug.retryCount ∧
    ∃ resp err, (execute cfgAfterBug (fun _ => okBehavior)).1 = .ret resp err :=
  ⟨by decide, claim_C2 cfgAfterBug (fun _ => okBehavior) (by decide)⟩



theorem runBeforeHooks_firstError (f : Nat → Option GoError) (j : Nat) (e : GoError)
    (hj : f j = some e) (hok : ∀ m, m < j → f m = none) :
    ∀ k i, i ≤ j → j < i + k →
      runBeforeHooks f k i = (List.range' i (j - i + 1), some e) := by
  intro k
  induction k with
  | zero => intro i _ h2; omega
  | succ n ih =>
    intro i h1 h2
    unfold runBeforeHooks
    rcases Nat.eq_or_lt_of_le h1 with rfl | hlt
    · simp [hj]
    · rw [hok i hlt]
      have hrec := ih (i + 1) hlt (by omega)
      rw [hrec]
      have heq : j - i + 1 = (j - (i + 1) + 1) + 1 := by omega
      rw [heq]
      simp [List.range'_succ]

theorem runBeforeHooks_all_none (f : Nat → Option GoError)
    (h : ∀ m, f m = none) :
    ∀ k i, runBeforeHooks f k i = (List.range' i k, none) := by
  intro k
  induction k with
  | zero => intro i; rfl
  | succ n ih =>
    intro i
    unfold runBeforeHooks
    rw [h i, ih (i + 1), List.range'_succ]

theorem runAfterHooks_all_none (g : Resp → Option GoError → Bool)
    (f : Nat → Option GoError) (h : ∀ m, f m = none) :
    ∀ k i r, runAfterHooks g f k i r = (r, List.range' i k, 0) := by
  intro k
  induction k with
  | zero => intro i r; rfl
  | succ n ih =>
    intro i r
    unfold runAfterHooks
    rw [h i, ih (i + 1), List.range'_succ]

theorem runAfterHooks_state (g : Resp → Option GoError → Bool) (f : Nat → Option GoError) :
    ∀ k i r, (runAfterHooks g f k i r).1.state = r.state := by
  intro k
  induction k with
  | zero => intro i r; rfl
  | succ n ih =>
    intro i r
    unfold runAfterHooks
    cases f i with
    | none => simpa using ih (i + 1) r
    | some e =>
      dsimp only []
      split
      · simpa using ih (i + 1) _
      · rfl

theorem runAfterHooks_hasHttpResp (g : Resp → Option GoError → Bool) (f : Nat → Option GoError) :
    ∀ k i r, (runAfterHooks g f k i r).1.hasHttpResp = r.hasHttpResp := by
  intro k
  induction k with
  | zero => intro i r; rfl
  | succ n ih =>
    intro i r
    unfold runAfterHooks
    cases f i with
    | none => simpa using ih (i + 1) r
    | some e =>
      dsimp only []
      split
      · simpa using ih (i + 1) _
      · rfl

theorem afterBodyOk_preClass (c : ExecConfig) (b : AttemptBehavior) (canRetry : Bool)
    (bc : List Nat) (resp1 : Resp) (resp : Resp) (d : AttemptDelta) (e : GoError)
    (h : afterBodyOk c b canRetry bc resp1 = (.retry resp, d) ∨
         afterBodyOk c b canRetry bc resp1 = (.finish resp, d))
    (h1 : resp1.hasHttpResp = true) (h2 : resp1.state = .SuccessState)
    (hshape : resp.err = some (.afterMiddleware e) ∨ resp.err = some (.bodyRead e) ∨
              (resp.hasHttpResp = false ∧ resp.err = some e)) :
    d.classified = false ∧ resp.state = .SuccessState := by
  rcases h with h | h <;>
  · unfold afterBodyOk at h
    dsimp only at h
    set a := runAfterHooks (fun r e => canRetry && shouldRetry c (some r) e)
      b.afterHook c.nAfter 0 { resp1 with statusCode := b.statusCode } with ha
    have hstate : a.1.state = .SuccessState := by
      rw [ha, runAfterHooks_state]; exact h2
    have hhttp : a.1.hasHttpResp = true := by
      rw [ha, runAfterHooks_hasHttpResp]; exact h1
    clear ha h1 h2
    clear_value a
    by_cases herr : a.1.err = none
    · rw [if_pos herr] at h
      repeat' split at h
      all_goals first
        | (simp only [Prod.mk.injEq, AttemptOutcome.retry.injEq,
              AttemptOutcome.finish.injEq] at h
           obtain ⟨hr, hd⟩ := h
           subst hr
           subst hd
           simp_all)
        | simp_all
    · rw [if_neg herr] at h
      split at h
      all_goals first
        | (simp only [Prod.mk.injEq, AttemptOutcome.retry.injEq,
              AttemptOutcome.finish.injEq] at h
           obtain ⟨hr, hd⟩ := h
           subst hr
           subst hd
           simp_all)
        | simp_all



theorem runAttempt_err_preClassification (c : ExecConfig) (b : AttemptBehavior)
    (canRetry : Bool) (resp : Resp) (d : AttemptDelta) (e : GoError)
    (h : runAttempt c b canRetry = (.retry resp, d) ∨
         runAttempt c b canRetry = (.finish resp, d))
    (hshape : resp.err = some (.afterMiddleware e) ∨ resp.err = some (.bodyRead e) ∨
              (resp.hasHttpResp = false ∧ resp.err = some e) ∨ b.transport = some e) :
    d.classified = false ∧ resp.state = .SuccessState := by
  have hcore : b.transport = none → ∀ (bc : List Nat) (r1 : Resp),
      r1.hasHttpResp = true → r1.state = .SuccessState →
      (afterBodyOk c b canRetry bc r1 = (.retry resp, d) ∨
       afterBodyOk c b canRetry bc r1 = (.finish resp, d)) →
      d.classified = false ∧ resp.state = .SuccessState := by
    intro htr bc r1 hh hs habo
    refine afterBodyOk_preClass c b canRetry bc r1 resp d e habo hh hs ?_
    rcases hshape with h | h | h | h
    · exact Or.inl h
    · exact Or.inr (Or.inl h)
    · exact Or.inr (Or.inr h)
    · rw [htr] at h; exact absurd h (by simp)
  rcases h with h | h <;>
  · unfold runAttempt at h
    cases hp : b.prepare with
    | some e0 => rw [hp] at h; simp at h
    | none =>
      rw [hp] at h
      rcases hbe : runBeforeHooks b.beforeHook c.nBefore 0 with ⟨bl, bres⟩
      rw [hbe] at h
      cases bres with
      | some e0 => simp at h
      | none =>
        dsimp only at h
        repeat' split at h
        all_goals first
          | (refine hcore (by assumption) _ _ rfl rfl (Or.inl h))
          | (refine hcore (by assumption) _ _ rfl rfl (Or.inr h))
          | (simp only [Prod.mk.injEq, AttemptOutcome.retry.injEq,
                AttemptOutcome.finish.injEq] at h
             obtain ⟨hr, hd⟩ := h
             subst hr
             subst hd
             simp_all)
          | simp at h



theorem executeLoop_abort_step (c : ExecConfig) (oracle : Nat → AttemptBehavior)
    (n attempt : Nat) (tr : Trace) (e : GoError) (d : AttemptDelta)
    (h : runAttempt c (oracle attempt) (decide (0 < n)) = (.abort e, d)) :
    executeLoop c oracle (n + 1) attempt tr = (.earlyReturn e, applyDelta tr attempt d) := by
  unfold executeLoop; rw [h]

theorem executeLoop_finish_step (c : ExecConfig) (oracle : Nat → AttemptBehavior)
    (n attempt : Nat) (tr : Trace) (resp : Resp) (d : AttemptDelta)
    (h : runAttempt c (oracle attempt) (decide (0 < n)) = (.finish resp, d)) :
    executeLoop c oracle (n + 1) attempt tr = (.finished resp, applyDelta tr attempt d) := by
  unfold executeLoop; rw [h]

theorem executeLoop_retry_step (c : ExecConfig) (oracle : Nat → AttemptBehavior)
    (n attempt : Nat) (tr : Trace) (resp : Resp) (d : AttemptDelta)
    (h : runAttempt c (oracle attempt) (decide (0 < n)) = (.retry resp, d)) :
    executeLoop c oracle (n + 1) attempt tr
      = executeLoop c oracle n (attempt + 1) (applyDelta tr attempt d) := by
  conv_lhs => unfold executeLoop
  rw [h]

/-- When the attempt loop ends in `break` with a response, some attempt
produced that response through `runAttempt`'s `finish` outcome. -/
theorem executeLoop_finished_runAttempt (c : ExecConfig) (oracle : Nat → AttemptBehavior) :
    ∀ fuel attempt tr resp tr2,
      executeLoop c oracle fuel attempt tr = (.finished resp, tr2) →
      ∃ b cr d, runAttempt c b cr = (.finish resp, d) := by
  intro fuel
  induction fuel with
  | zero =>
    intro attempt tr resp tr2 h
    exact absurd (congrArg Prod.fst h) (by simp [executeLoop])
  | succ n ih =>
    intro attempt tr resp tr2 h
    rcases hstep : runAttempt c (oracle attempt) (decide (0 < n)) with ⟨out, d⟩
    cases out with
    | abort e =>
      rw [executeLoop_abort_step c oracle n attempt tr e d hstep] at h
      exact absurd (congrArg Prod.fst h) (by simp)
    | finish resp0 =>
      rw [executeLoop_finish_step c oracle n attempt tr resp0 d hstep] at h
      have : resp0 = resp := by
        have := congrArg Prod.fst h
        simpa using this
      exact ⟨oracle attempt, decide (0 < n), d, by rw [hstep, this]⟩
    | retry resp0 =>
      rw [executeLoop_retry_step c oracle n attempt tr resp0 d hstep] at h
      exact ih (attempt + 1) _ resp tr2 h

/-- C9 -/
theorem claim_C9 :
    (∀ (c : ExecConfig) (b : AttemptBehavior) (canRetry : Bool) (resp : Resp)
       (d : AttemptDelta) (e : GoError),
       (runAttempt c b canRetry = (.retry resp, d) ∨
        runAttempt c b canRetry = (.finish resp, d)) →
       (resp.err = some (.afterMiddleware e) ∨ resp.err = some (.bodyRead e) ∨
        (resp.hasHttpResp = false ∧ resp.err = some e) ∨ b.transport = some e) →
       d.classified = false ∧ resp.state = .SuccessState ∧
       resp.IsSuccess = true ∧ resp.resultState = .SuccessState) ∧
    (∀ (c : ExecConfig) (oracle : Nat → AttemptBehavior) (resp : Resp)
       (err : Option GoError) (tr : Trace) (e : GoError),
       execute c oracle = (.ret (some resp) err, tr) →
       (resp.err = some (.afterMiddleware e) ∨ resp.err = some (.bodyRead e) ∨
        (resp.hasHttpResp = false ∧ resp.err = some e)) →
       resp.state = .SuccessState ∧ resp.IsSuccess = true ∧
       resp.resultState = .SuccessState) := by
  have main := runAttempt_err_preClassification
  constructor
  · intro c b canRetry resp d e h hshape
    obtain ⟨h1, h2⟩ := main c b canRetry resp d e h hshape
    exact ⟨h1, h2, by simp [Resp.IsSuccess, h2], by simp [Resp.resultState, h2]⟩
  · intro c oracle resp err tr e hex hshape
    unfold execute at hex
    rcases hout : executeLoop c oracle (maxAttempts c).toNat 0 {} with ⟨out, tr0⟩
    rw [hout] at hex
    cases out with
    | earlyReturn e0 => exact absurd (congrArg Prod.fst hex) (by simp)
    | noAttempt => exact absurd (congrArg Prod.fst hex) (by simp)
    | finished resp0 =>
      have hr : resp0 = resp := by
        have h2 := congrArg Prod.fst hex
        simp only [ExecResult.ret.injEq, Option.some.injEq] at h2
        exact h2.1
      subst hr
      obtain ⟨b, cr, d, hfin⟩ :=
        executeLoop_finished_runAttempt c oracle (maxAttempts c).toNat 0 {} resp0 tr0 hout
      obtain ⟨_, h2⟩ := main c b cr resp0 d e (Or.inr hfin)
        (by rcases hshape with h | h | h
            · exact Or.inl h
            · exact Or.inr (Or.inl h)
            · exact Or.inr (Or.inr (Or.inl h)))
      exact ⟨h2, by simp [Resp.IsSuccess, h2], by simp [Resp.resultState, h2]⟩

def cfgPlain : ExecConfig :=
  { retryCount := 0, nBefore := 0, nAfter := 0,
    retryCondition := none,
    resultChecker := defaultResultChecker,
    hasSuccessResult := false, hasErrorResult := false,
    hasCommonErrorResult := false }

def bBodyFail : AttemptBehavior :=
  { okBehavior with readBody := .error (.msg "readfail") }

/-- C9 witness -/
theorem claim_C9_witness :
    (({ sent := true } : AttemptDelta).classified = false ∧
     ({ hasHttpResp := true, err := some (.bodyRead (.msg "readfail")) } : Resp).state
       = .SuccessState ∧
     ({ hasHttpResp := true, err := some (.bodyRead (.msg "readfail")) } : Resp).IsSuccess
       = true ∧
     ({ hasHttpResp := true, err := some (.bodyRead (.msg "readfail")) } : Resp).resultState
       = .SuccessState) ∧
    (({ hasHttpResp := true, err := some (.bodyRead (.msg "readfail")) } : Resp).state
       = .SuccessState ∧
     ({ hasHttpResp := true, err := some (.bodyRead (.msg "readfail")) } : Resp).IsSuccess
       = true ∧
     ({ hasHttpResp := true, err := some (.bodyRead (.msg "readfail")) } : Resp).resultState
       = .SuccessState) :=
  ⟨claim_C9.1 cfgPlain bBodyFail false
      { hasHttpResp := true, err := some (.bodyRead (.msg "readfail")) }
      { sent := true } (.msg "readfail")
      (Or.inr rfl) (Or.inr (Or.inl rfl)),
   claim_C9.2 cfgPlain (fun _ => bBodyFail)
      { hasHttpResp := true, err := some (.bodyRead (.msg "readfail")) }
      (some (.bodyRead (.msg "readfail")))
      { prepares := [0], sends := [0] } (.msg "readfail")
      rfl (Or.inr (Or.inl rfl))⟩



/-- The populated response handed to the result classifier on a clean
attempt (client.go:709-753 with a transport success, all body bytes read,
and no hook error): http.Response attached, status copied, body stored. -/
def classifierInput (statusCode : Int) (bytes : List Nat) : Resp :=
  { hasHttpResp := true, statusCode := statusCode, body := bytes,
    size := (bytes.length : Int) }

/-- C5 -/
theorem claim_C5 (c : ExecConfig) (oracle : Nat → AttemptBehavior)
    (bytes : List Nat) (e : GoError)
    (hrc : c.retryCount = 0)
    (hprep : (oracle 0).prepare = none)
    (hbefore : ∀ i, (oracle 0).beforeHook i = none)
    (htrans : (oracle 0).transport = none)
    (hbody : (oracle 0).hasBody = true)
    (hread : (oracle 0).readBody = .ok bytes)
    (hne : bytes ≠ [])
    (hafter : ∀ i, (oracle 0).afterHook i = none) :
    (c.resultChecker (classifierInput (oracle 0).statusCode bytes) = .SuccessState →
     c.hasSuccessResult = true →
     (oracle 0).successDecode = some e →
     (execute c oracle).1 =
       .ret (some { classifierInput (oracle 0).statusCode bytes with
                    state := .SuccessState, err := some (.unmarshalSuccess e) })
            (some (.unmarshalSuccess e))) ∧
    (c.resultChecker (classifierInput (oracle 0).statusCode bytes) = .ErrorState →
     (c.hasErrorResult = true ∨ c.hasCommonErrorResult = true) →
     (oracle 0).errorDecode = some e →
     (execute c oracle).1 =
       .ret (some { classifierInput (oracle 0).statusCode bytes with
                    state := .ErrorState }) none ∧
     (execute c oracle).2.errorDecodes = [0]) := by
  have hfuel : (maxAttempts c).toNat = 1 := by
    unfold maxAttempts; omega
  have hb := runBeforeHooks_all_none (oracle 0).beforeHook hbefore c.nBefore 0
  have ha : ∀ g r, runAfterHooks g (oracle 0).afterHook c.nAfter 0 r
      = (r, List.range' 0 c.nAfter, 0) :=
    fun g => runAfterHooks_all_none g (oracle 0).afterHook hafter c.nAfter 0
  constructor
  · intro hS hT hD
    simp only [classifierInput] at hS
    have hstep0 : runAttempt c (oracle 0) false =
        (.finish { classifierInput (oracle 0).statusCode bytes with
                   state := .SuccessState, err := some (.unmarshalSuccess e) },
         { beforeCalls := List.range' 0 c.nBefore, sent := true,
           afterCalls := List.range' 0 c.nAfter, classified := true,
           successDecoded := true, errorDecoded := false, sleeps := 0 }) := by
      unfold runAttempt afterBodyOk
      rw [hprep, hb]
      simp only [htrans, hbody, hread]
      simp [ha, hS, hT, hD, unmarshalResponse, hne, classifierInput]
    have hstep : runAttempt c (oracle 0) (decide (0 < 0)) =
        (.finish { classifierInput (oracle 0).statusCode bytes with
                   state := .SuccessState, err := some (.unmarshalSuccess e) },
         { beforeCalls := List.range' 0 c.nBefore, sent := true,
           afterCalls := List.range' 0 c.nAfter, classified := true,
           successDecoded := true, errorDecoded := false, sleeps := 0 }) := hstep0
    have hex := executeLoop_finish_step c oracle 0 0 {} _ _ hstep
    unfold execute
    rw [hfuel, hex]
  · intro hS hE hD
    simp only [classifierInput] at hS
    have hstep0 : runAttempt c (oracle 0) false =
        (.finish { classifierInput (oracle 0).statusCode bytes with state := .ErrorState },
         { beforeCalls := List.range' 0 c.nBefore, sent := true,
           afterCalls := List.range' 0 c.nAfter, classified := true,
           successDecoded := false, errorDecoded := true, sleeps := 0 }) := by
      unfold runAttempt afterBodyOk
      rw [hprep, hb]
      simp only [htrans, hbody, hread]
      rcases hE with hE | hE
      · simp [ha, hS, hE, classifierInput]
      · by_cases h2 : c.hasErrorResult = true
        · simp [ha, hS, h2, classifierInput]
        · simp [ha, hS, h2, hE, classifierInput]
    have hstep : runAttempt c (oracle 0) (decide (0 < 0)) =
        (.finish { classifierInput (oracle 0).statusCode bytes with state := .ErrorState },
         { beforeCalls := List.range' 0 c.nBefore, sent := true,
           afterCalls := List.range' 0 c.nAfter, classified := true,
           successDecoded := false, errorDecoded := true, sleeps := 0 }) := hstep0
    have hex := executeLoop_finish_step c oracle 0 0 {} _ _ hstep
    constructor
    · unfold execute
      rw [hfuel, hex]
      rfl
    · unfold execute
      rw [hfuel, hex]
      simp [applyDelta]



def cfgDecodeSuccess : ExecConfig :=
  { retryCount := 0, nBefore := 0, nAfter := 0,
    retryCondition := none, resultChecker := defaultResultChecker,
    hasSuccessResult := true, hasErrorResult := false,
    hasCommonErrorResult := false }

def bDecodeSuccess : AttemptBehavior :=
  { okBehavior with successDecode := some (.msg "baddecode") }

def cfgDecodeError : ExecConfig :=
  { cfgDecodeSuccess with hasSuccessResult := false, hasErrorResult := true }

def bDecodeError : AttemptBehavior :=
  { okBehavior with statusCode := 404, errorDecode := some (.msg "baddecode") }

/-- C5 witness -/
theorem claim_C5_witness :
    ((execute cfgDecodeSuccess (fun _ => bDecodeSuccess)).1 =
      .ret (some { classifierInput 200 [1, 2] with
                   state := .SuccessState,
                   err := some (.unmarshalSuccess (.msg "baddecode")) })
           (some (.unmarshalSuccess (.msg "baddecode")))) ∧
    ((execute cfgDecodeError (fun _ => bDecodeError)).1 =
      .ret (some { classifierInput 404 [1, 2] with state := .ErrorState }) none ∧
     (execute cfgDecodeError (fun _ => bDecodeError)).2.errorDecodes = [0]) :=
  ⟨(claim_C5 cfgDecodeSuccess (fun _ => bDecodeSuccess) [1, 2] (.msg "baddecode")
      rfl rfl (fun _ => rfl) rfl rfl rfl (by decide) (fun _ => rfl)).1
      (by decide) rfl rfl,
   (claim_C5 cfgDecodeError (fun _ => bDecodeError) [1, 2] (.msg "baddecode")
      rfl rfl (fun _ => rfl) rfl rfl rfl (by decide) (fun _ => rfl)).2
      (by decide) (Or.inl rfl) rfl⟩

/-! ## C4 — before-hook failure aborts the call -/

/-- C4: when on attempt 0 `prepareRequest` succeeds and before-hook `j`
is the first to fail, the whole `Execute` call returns immediately with
the wrapped hook error: hooks `0..j` are the only before-hooks run, no
transport send happens, no after-hook, classification or decode runs, no
sleep occurs, and exactly one attempt takes place. -/
theorem claim_C4 (c : ExecConfig) (oracle : Nat → AttemptBehavior) (j : Nat) (e : GoError)
    (hrc : 0 ≤ c.retryCount)
    (hprep : (oracle 0).prepare = none)
    (hj : j < c.nBefore)
    (hfail : (oracle 0).beforeHook j = some e)
    (hok : ∀ i, i < j → (oracle 0).beforeHook i = none) :
    execute c oracle =
      (.ret none (some (.beforeMiddleware e)),
       { prepares := [0],
         beforeCalls := (List.range' 0 (j + 1)).map (fun i => (0, i)),
         sends := [], afterCalls := [], classifies := [],
         successDecodes := [], errorDecodes := [], sleeps := 0 }) := by
  obtain ⟨n, hn⟩ : ∃ n, (maxAttempts c).toNat = n + 1 :=
    ⟨(maxAttempts c).toNat - 1, by unfold maxAttempts; omega⟩
  have hhooks : runBeforeHooks (oracle 0).beforeHook c.nBefore 0 =
      (List.range' 0 (j + 1), some e) := by
    have := runBeforeHooks_firstError (oracle 0).beforeHook j e hfail hok c.nBefore 0
      (Nat.zero_le j) (by omega)
    simpa using this
  simp [execute, hn, executeLoop, runAttempt, hprep, hhooks, applyDelta]

/-- Client for the before-hook witness: a 3-attempt budget with two
before-hooks, the first of which always fails. -/
def cfgBeforeFail : ExecConfig :=
  { retryCount := 2, nBefore := 2, nAfter := 0,
    retryCondition := some (fun _ _ => true),
    resultChecker := defaultResultChecker,
    hasSuccessResult := false, hasErrorResult := false,
    hasCommonErrorResult := false }

def oracleBeforeFail : Nat → AttemptBehavior := fun _ =>
  { okBehavior with beforeHook := fun i => if i = 0 then some (.msg "beforefail") else none }

/-- Witness for C4: before-hook 0 failing on attempt 1 of a 3-attempt
budget yields exactly one attempt and the hook error. -/
theorem claim_C4_witness :
    execute cfgBeforeFail oracleBeforeFail =
      (.ret none (some (.beforeMiddleware (.msg "beforefail"))),
       { prepares := [0], beforeCalls := [(0, 0)],
         sends := [], afterCalls := [], classifies := [],
         successDecodes := [], errorDecodes := [], sleeps := 0 }) := by
  have := claim_C4 cfgBeforeFail oracleBeforeFail 0 (.msg "beforefail")
    (by decide) rfl (by decide) rfl (by intro i hi; omega)
  simpa using this

/-! ## C3 — attempt budget and sleep count -/

theorem shouldRetry_always (c : ExecConfig) (cond : Option Resp → Option GoError → Bool)
    (hc : c.retryCondition = some cond) (hT : ∀ r e, cond r e = true) :
    ∀ r e, shouldRetry c r e = true := by
  intro r e
  simp [shouldRetry, hc, hT]

/-- A clean-hook attempt with a retry predicate that always answers true:
on a non-final attempt it always retries after exactly one sleep, and on
the final attempt it finishes without sleeping. -/
theorem runAttempt_clean (c : ExecConfig) (b : AttemptBehavior)
    (cond : Option Resp → Option GoError → Bool)
    (hc : c.retryCondition = some cond) (hT : ∀ r e, cond r e = true)
    (hprep : b.prepare = none)
    (hbefore : ∀ i, b.beforeHook i = none)
    (hafter : ∀ i, b.afterHook i = none) :
    (∃ resp d, runAttempt c b true = (.retry resp, d) ∧ d.sleeps = 1) ∧
    (∃ resp d, runAttempt c b false = (.finish resp, d) ∧ d.sleeps = 0) := by
  have hsr := shouldRetry_always c cond hc hT
  have ha : ∀ g r, runAfterHooks g b.afterHook c.nAfter 0 r
      = (r, List.range' 0 c.nAfter, 0) :=
    fun g => runAfterHooks_all_none g b.afterHook hafter c.nAfter 0
  constructor
  · unfold runAttempt afterBodyOk
    rw [hprep, runBeforeHooks_all_none b.beforeHook hbefore]
    simp only [ha, hsr, Bool.true_and, eq_self_iff_true, if_true]
    repeat' split
    all_goals exact ⟨_, _, rfl, rfl⟩
  · unfold runAttempt afterBodyOk
    rw [hprep, runBeforeHooks_all_none b.beforeHook hbefore]
    simp only [ha, Bool.false_and, Bool.false_eq_true, if_false]
    repeat' split
    all_goals exact ⟨_, _, rfl, rfl⟩

theorem applyDelta_prepares_length (tr : Trace) (a : Nat) (d : AttemptDelta) :
    (applyDelta tr a d).prepares.length = tr.prepares.length + 1 := by
  simp [applyDelta]

/-- The attempt loop never runs more iterations than its remaining
budget. -/
theorem executeLoop_attempts_le (c : ExecConfig) (oracle : Nat → AttemptBehavior) :
    ∀ fuel attempt tr,
      (executeLoop c oracle fuel attempt tr).2.prepares.length ≤ tr.prepares.length + fuel := by
  intro fuel
  induction fuel with
  | zero => intro _ _; simp [executeLoop]
  | succ n ih =>
    intro attempt tr
    rcases hstep : runAttempt c (oracle attempt) (decide (0 < n)) with ⟨out, d⟩
    cases out with
    | abort e =>
      rw [executeLoop_abort_step c oracle n attempt tr e d hstep]
      simp [applyDelta_prepares_length]
    | finish resp =>
      rw [executeLoop_finish_step c oracle n attempt tr resp d hstep]
      simp [applyDelta_prepares_length]
    | retry resp =>
      rw [executeLoop_retry_step c oracle n attempt tr resp d hstep]
      calc (executeLoop c oracle n (attempt + 1) (applyDelta tr attempt d)).2.prepares.length
          ≤ (applyDelta tr attempt d).prepares.length + n := ih (attempt + 1) _
        _ = tr.prepares.length + (n + 1) := by
            rw [applyDelta_prepares_length]; omega

/-- With clean hooks and an always-true retry predicate, a loop started
with `fuel + 1` remaining iterations runs exactly `fuel + 1` attempts and
sleeps exactly `fuel` times, ending in `break`. -/
theorem executeLoop_clean_exact (c : ExecConfig) (oracle : Nat → AttemptBehavior)
    (cond : Option Resp → Option GoError → Bool)
    (hc : c.retryCondition = some cond) (hT : ∀ r e, cond r e = true)
    (hprep : ∀ a, (oracle a).prepare = none)
    (hbefore : ∀ a i, (oracle a).beforeHook i = none)
    (hafter : ∀ a i, (oracle a).afterHook i = none) :
    ∀ fuel attempt tr,
      (∃ resp tr2, executeLoop c oracle (fuel + 1) attempt tr = (.finished resp, tr2)) ∧
      (executeLoop c oracle (fuel + 1) attempt tr).2.prepares.length
        = tr.prepares.length + fuel + 1 ∧
      (executeLoop c oracle (fuel + 1) attempt tr).2.sleeps = tr.sleeps + fuel := by
  intro fuel
  induction fuel with
  | zero =>
    intro attempt tr
    obtain ⟨resp, d, hfin, hs⟩ :=
      (runAttempt_clean c (oracle attempt) cond hc hT (hprep attempt)
        (hbefore attempt) (hafter attempt)).2
    have hfin2 : runAttempt c (oracle attempt) (decide (0 < 0)) = (.finish resp, d) := hfin
    rw [executeLoop_finish_step c oracle 0 attempt tr resp d hfin2]
    simp [applyDelta, hs]
  | succ n ih =>
    intro attempt tr
    obtain ⟨resp, d, hret, hs⟩ :=
      (runAttempt_clean c (oracle attempt) cond hc hT (hprep attempt)
        (hbefore attempt) (hafter attempt)).1
    have hret2 : runAttempt c (oracle attempt) (decide (0 < n + 1)) = (.retry resp, d) := by
      simpa using hret
    rw [executeLoop_retry_step c oracle (n + 1) attempt tr resp d hret2]
    have hrec := ih (attempt + 1) (applyDelta tr attempt d)
    refine ⟨hrec.1, ?_, ?_⟩
    · rw [hrec.2.1, applyDelta_prepares_length]; omega
    · rw [hrec.2.2]
      simp [applyDelta, hs]
      omega

/-- C3: with retry count `N ≥ 0` an `Execute` call performs at most `N+1`
attempts; when the retry predicate always answers true and neither
`prepareRequest` nor any hook fails, exactly `N+1` attempts occur and the
retry interval is slept exactly `N` times, once between each pair of
consecutive attempts. -/
theorem claim_C3 (c : ExecConfig) (oracle : Nat → AttemptBehavior) (N : Nat)
    (hrc : c.retryCount = (N : Int)) :
    (execute c oracle).2.prepares.length ≤ N + 1 ∧
    ((∃ cond, c.retryCondition = some cond ∧ ∀ r e, cond r e = true) →
     (∀ a, (oracle a).prepare = none) →
     (∀ a i, (oracle a).beforeHook i = none) →
     (∀ a i, (oracle a).afterHook i = none) →
     (execute c oracle).2.prepares.length = N + 1 ∧ (execute c oracle).2.sleeps = N) := by
  have hfuel : (maxAttempts c).toNat = N + 1 := by
    unfold maxAttempts; omega
  constructor
  · have h := executeLoop_attempts_le c oracle (maxAttempts c).toNat 0 {}
    rw [hfuel] at h
    unfold execute
    cases hout : (executeLoop c oracle (maxAttempts c).toNat 0 {}) with
    | mk out tr =>
      rw [hfuel] at hout
      cases out <;> simp_all
  · rintro ⟨cond, hc, hT⟩ hprep hbefore hafter
    have h := executeLoop_clean_exact c oracle cond hc hT hprep hbefore hafter N 0 {}
    unfold execute
    cases hout : (executeLoop c oracle (maxAttempts c).toNat 0 {}) with
    | mk out tr =>
      rw [hfuel] at hout
      rw [hout] at h
      obtain ⟨⟨resp, tr2, hfin⟩, hlen, hsl⟩ := h
      cases out <;> simp_all

/-- Client for the C3 witness: two retries, one before- and one
after-hook (never failing), always-true retry predicate. -/
def cfgRetry2 : ExecConfig :=
  { retryCount := 2, nBefore := 1, nAfter := 1,
    retryCondition := some (fun _ _ => true),
    resultChecker := defaultResultChecker,
    hasSuccessResult := false, hasErrorResult := false,
    hasCommonErrorResult := false }

/-- Witness for C3 at N = 2: exactly 3 attempts, exactly 2 sleeps. -/
theorem claim_C3_witness :
    (execute cfgRetry2 (fun _ => okBehavior)).2.prepares.length = 3 ∧
    (execute cfgRetry2 (fun _ => okBehavior)).2.sleeps = 2 :=
  (claim_C3 cfgRetry2 (fun _ => okBehavior) 2 rfl).2
    ⟨fun _ _ => true, rfl, fun _ _ => rfl⟩ (fun _ => rfl) (fun _ _ => rfl) (fun _ _ => rfl)


/-! ## C6 — query parameter merge -/


/-- Go `url.Values` (`map[string][]string`), modelled as an association
list whose keys are pairwise distinct; the Go map's unspecified iteration
order becomes the list order. -/
def ValuesMap := List (String × List String)

/-- `url.Values.Add` (net/url): append `v` to the slice of key `k`,
inserting the key when absent. -/
def valuesAdd : List (String × List String) → String → String → List (String × List String)
  | [], k, v => [(k, [v])]
  | (k0, vs0) :: rest, k, v =>
    if k0 = k then (k0, vs0 ++ [v]) :: rest
    else (k0, vs0) :: valuesAdd rest k v

/-- `url.Values.Get`-like lookup of the full value slice of a key. -/
def valuesGet : List (String × List String) → String → List String
  | [], _ => []
  | (k0, vs0) :: rest, k => if k0 = k then vs0 else valuesGet rest k

/-- One merge loop of buildURL (utils.go:49-58):
`for k, values := range src { for _, v := range values { q.Add(k, v) } }`. -/
def valuesAddAll (q src : List (String × List String)) : List (String × List String) :=
  src.foldl (fun acc kv => kv.2.foldl (fun a v => valuesAdd a kv.1 v) acc) q

/-- The query-merge step of `buildURL` (utils.go:47-59): start from the
URL's own query `u.Query()`, add every client-level pair, then every
request-level pair. -/
def mergeQuery (urlQ clientQ reqQ : List (String × List String)) :
    List (String × List String) :=
  valuesAddAll (valuesAddAll urlQ clientQ) reqQ

/-- Insertion into a key-sorted association list, used to model the
`sort.Strings` call inside `url.Values.Encode`. -/
def insertSorted (x : String × List String) :
    List (String × List String) → List (String × List String)
  | [] => [x]
  | y :: rest => if x.1 ≤ y.1 then x :: y :: rest else y :: insertSorted x rest

/-- Key-sorting of an association list (keys here are pairwise distinct,
so stability questions do not arise). -/
def sortByKey : List (String × List String) → List (String × List String)
  | [] => []
  | x :: rest => insertSorted x (sortByKey rest)

/-- `url.Values.Encode` (net/url): keys in sorted order, each key's values
in slice order, joined `k=v` with ampersands.  Percent-escaping is not
modelled; the inputs used here need none. -/
def encodeValues (vs : List (String × List String)) : String :=
  String.intercalate "&"
    ((sortByKey vs).flatMap (fun kv => kv.2.map (fun v => kv.1 ++ "=" ++ v)))

theorem valuesGet_valuesAdd (vs : List (String × List String)) (k v : String) :
    ∀ k', valuesGet (valuesAdd vs k v) k'
      = if k = k' then valuesGet vs k' ++ [v] else valuesGet vs k' := by
  induction vs with
  | nil =>
    intro k'
    by_cases h : k = k' <;> simp [valuesAdd, valuesGet, h]
  | cons kv rest ih =>
    intro k'
    rcases kv with ⟨k0, vs0⟩
    by_cases h0 : k0 = k
    · subst h0
      by_cases h : k0 = k' <;> simp [valuesAdd, valuesGet, h]
    · by_cases h : k0 = k'
      · subst h
        simp [valuesAdd, valuesGet, h0]
        rw [if_neg (fun hh : k = k0 => h0 hh.symm)]
      · simp [valuesAdd, valuesGet, h0, h, ih k']

theorem valuesGet_eq_nil_of_not_mem (src : List (String × List String)) (k : String)
    (h : k ∉ src.map Prod.fst) : valuesGet src k = [] := by
  induction src with
  | nil => rfl
  | cons kv rest ih =>
    simp only [List.map_cons, List.mem_cons] at h
    push_neg at h
    rcases kv with ⟨k0, vs0⟩
    simp only [valuesGet]
    rw [if_neg (fun hh => h.1 hh.symm)]
    exact ih h.2

theorem valuesGet_addList (k0 : String) (vs0 : List String) :
    ∀ (q : List (String × List String)) (k : String),
      valuesGet (vs0.foldl (fun a v => valuesAdd a k0 v) q) k
        = valuesGet q k ++ (if k0 = k then vs0 else []) := by
  induction vs0 with
  | nil => intro q k; by_cases h : k0 = k <;> simp [h]
  | cons v vrest ih =>
    intro q k
    simp only [List.foldl_cons]
    rw [ih (valuesAdd q k0 v) k, valuesGet_valuesAdd q k0 v k]
    by_cases h : k0 = k <;> simp [h]

theorem valuesGet_addAll (src : List (String × List String))
    (hnd : (src.map Prod.fst).Nodup) :
    ∀ (q : List (String × List String)) (k : String),
      valuesGet (valuesAddAll q src) k = valuesGet q k ++ valuesGet src k := by
  induction src with
  | nil => intro q k; simp [valuesAddAll, valuesGet]
  | cons kv rest ih =>
    intro q k
    rcases kv with ⟨k0, vs0⟩
    simp only [List.map_cons, List.nodup_cons] at hnd
    have step : valuesAddAll q ((k0, vs0) :: rest)
        = valuesAddAll (vs0.foldl (fun a v => valuesAdd a k0 v) q) rest := rfl
    rw [step, ih hnd.2, valuesGet_addList k0 vs0 q k]
    simp only [valuesGet]
    by_cases h : k0 = k
    · subst h
      rw [if_pos rfl, valuesGet_eq_nil_of_not_mem rest k0 hnd.1]
      simp
    · simp [h]

/-- C6 -/
theorem claim_C6 :
    (∀ (urlQ clientQ reqQ : List (String × List String)) (k : String),
       (clientQ.map Prod.fst).Nodup → (reqQ.map Prod.fst).Nodup →
       valuesGet (mergeQuery urlQ clientQ reqQ) k
         = valuesGet urlQ k ++ valuesGet clientQ k ++ valuesGet reqQ k) ∧
    (mergeQuery [] [("a", ["1"])] [("a", ["2"])] = [("a", ["1", "2"])] ∧
     encodeValues (mergeQuery [] [("a", ["1"])] [("a", ["2"])]) = "a=1&a=2") := by
  refine ⟨?_, by decide, by decide⟩
  intro urlQ clientQ reqQ k hc hr
  unfold mergeQuery
  rw [valuesGet_addAll reqQ hr, valuesGet_addAll clientQ hc]

/-- C6 witness at the spec's example values. -/
theorem claim_C6_witness :
    valuesGet (mergeQuery [("b", ["0"])] [("a", ["1"])] [("a", ["2"])]) "a"
      = ["1", "2"] :=
  by
    have h := claim_C6.1 [("b", ["0"])] [("a", ["1"])] [("a", ["2"])] "a"
      (by decide) (by decide)
    rw [h]
    decide


/-! ## C10 — Request.Clone -/


/-- `Request` (request.go:14-38).  Opaque payloads keep only the
observations the claims need: `body` is the payload's presence, `cookies`
abstract handles, `successResult`/`errorResult`/`uploadCallback` their
`!= nil` state, `tracer` the `trace.Tracer != nil` state, `ctx` the
context handle. -/
structure Request where
  method : String := ""
  url : String := ""
  ctx : Option Unit := none
  headers : List (String × List String) := []
  queryParams : List (String × List String) := []
  pathParams : List (String × String) := []
  formData : List (String × List String) := []
  body : Option (List Nat) := none
  bodyType : String := ""
  cookies : List String := []
  userAgent : String := ""
  basicAuthUsername : String := ""
  basicAuthPassword : String := ""
  bearerToken : String := ""
  successResult : Bool := false
  errorResult : Bool := false
  downloadPath : String := ""
  uploadCallback : Bool := false
  tracer : Bool := false
  spanName : String := ""
  deriving DecidableEq, Repr

/-- `Request.SetUserAgent` (request.go:69-72). -/
def Request.setUserAgent (r : Request) (ua : String) : Request :=
  { r with userAgent := ua }

/-- `Request.Clone` (request.go:411-454).  The Go struct literal lists
`client, method, url, ctx, headers, queryParams, pathParams, formData,
body, bodyType, cookies, basicAuth, bearerToken, successResult,
errorResult, downloadPath, uploadCallback` — and omits `userAgent`,
`tracer` and `spanName`, which therefore get Go zero values.  The maps
and slices among the copied fields are freshly allocated in Go (deep
copy); values are immutable here, so the copy is plain field transfer. -/
def Request.clone (r : Request) : Request :=
  { method := r.method
    url := r.url
    ctx := r.ctx
    headers := r.headers
    queryParams := r.queryParams
    pathParams := r.pathParams
    formData := r.formData
    body := r.body
    bodyType := r.bodyType
    cookies := r.cookies
    basicAuthUsername := r.basicAuthUsername
    basicAuthPassword := r.basicAuthPassword
    bearerToken := r.bearerToken
    successResult := r.successResult
    errorResult := r.errorResult
    downloadPath := r.downloadPath
    uploadCallback := r.uploadCallback
    userAgent := ""
    tracer := false
    spanName := "" }

/-- The User-Agent resolution of `prepareRequest` (client.go:636-649):
only when the merged headers carry no explicit User-Agent, pick the
request-level value, else the client-level value, else the environment
default. -/
def resolveUserAgent (headerUA reqUA clientUA : String) : String :=
  if headerUA ≠ "" then headerUA
  else if reqUA ≠ "" then reqUA
  else if clientUA ≠ "" then clientUA
  else "Go-http-client/1.1"

/-- C10: `Request.Clone` drops `userAgent`, `tracer` and `spanName` — a
clone of a request configured with a non-empty `SetUserAgent(ua)` carries
the empty per-request user agent, so executing it resolves User-Agent
from the client-level value or the environment default rather than `ua` —
while every other configured field is carried over. -/
theorem claim_C10 (r : Request) (ua clientUA : String) (h : ua ≠ "") :
    ((r.setUserAgent ua).clone.userAgent = "" ∧
     (r.setUserAgent ua).clone.tracer = false ∧
     (r.setUserAgent ua).clone.spanName = "") ∧
    (resolveUserAgent "" (r.setUserAgent ua).clone.userAgent clientUA
      = if clientUA ≠ "" then clientUA else "Go-http-client/1.1") ∧
    ((r.setUserAgent ua).clone.method = r.method ∧
     (r.setUserAgent ua).clone.url = r.url ∧
     (r.setUserAgent ua).clone.ctx = r.ctx ∧
     (r.setUserAgent ua).clone.headers = r.headers ∧
     (r.setUserAgent ua).clone.queryParams = r.queryParams ∧
     (r.setUserAgent ua).clone.pathParams = r.pathParams ∧
     (r.setUserAgent ua).clone.formData = r.formData ∧
     (r.setUserAgent ua).clone.body = r.body ∧
     (r.setUserAgent ua).clone.bodyType = r.bodyType ∧
     (r.setUserAgent ua).clone.cookies = r.cookies ∧
     (r.setUserAgent ua).clone.basicAuthUsername = r.basicAuthUsername ∧
     (r.setUserAgent ua).clone.basicAuthPassword = r.basicAuthPassword ∧
     (r.setUserAgent ua).clone.bearerToken = r.bearerToken ∧
     (r.setUserAgent ua).clone.successResult = r.successResult ∧
     (r.setUserAgent ua).clone.errorResult = r.errorResult ∧
     (r.setUserAgent ua).clone.downloadPath = r.downloadPath ∧
     (r.setUserAgent ua).clone.uploadCallback = r.uploadCallback) := by
  refine ⟨⟨rfl, rfl, rfl⟩, ?_, ?_⟩
  · simp [resolveUserAgent, Request.clone, Request.setUserAgent]
  · exact ⟨rfl, rfl, rfl, rfl, rfl, rfl, rfl, rfl, rfl, rfl, rfl, rfl, rfl,
      rfl, rfl, rfl, rfl⟩

/-- C10 witness at a concrete request with user agent "myua" and
client-level user agent "clientua". -/
theorem claim_C10_witness :
    (({ method := "GET", url := "http://x", bearerToken := "tok" }
        : Request).setUserAgent "myua").clone.userAgent = "" ∧
    resolveUserAgent ""
      (({ method := "GET", url := "http://x", bearerToken := "tok" }
          : Request).setUserAgent "myua").clone.userAgent "clientua" = "clientua" :=
  have h := claim_C10 { method := "GET", url := "http://x", bearerToken := "tok" }
    "myua" "clientua" (by decide)
  ⟨h.1.1, by rw [h.2.1]; decide⟩


/-! ## C7 — path-parameter substitution -/


/-- `strings.ReplaceAll` on character lists: leftmost-first,
non-overlapping replacement of every occurrence of `p :: ps` by `rep`. -/
def replaceAllAux (p : Char) (ps rep : List Char) : List Char → List Char
  | [] => []
  | c :: cs =>
    if (p :: ps).isPrefixOf (c :: cs) then
      rep ++ replaceAllAux p ps rep (cs.drop ps.length)
    else
      c :: replaceAllAux p ps rep cs
  termination_by s => s.length
  decreasing_by
    · simp only [List.length_drop, List.length_cons]; omega
    · simp only [List.length_cons]; omega

/-- `strings.ReplaceAll(s, pat, rep)`.  Go's empty-pattern behavior
(insert `rep` between all characters) is unreachable through `buildURL`,
whose patterns are `"{" + key + "}"`; an empty pattern returns `s`. -/
def replaceAll (s pat rep : List Char) : List Char :=
  match pat with
  | [] => s
  | p :: ps => replaceAllAux p ps rep s

/-- `strings.Contains(s, p :: ps)`: does the pattern occur in `s`? -/
def containsSubAux (p : Char) (ps : List Char) : List Char → Bool
  | [] => false
  | c :: cs => (p :: ps).isPrefixOf (c :: cs) || containsSubAux p ps cs

/-- `strings.Contains(s, pat)`. -/
def containsSub (s pat : List Char) : Bool :=
  match pat with
  | [] => true
  | p :: ps => containsSubAux p ps s

/-- A Go `map[string]string`, as an association list with distinct keys;
`mapSet` is `m[k] = v`. -/
def mapSet : List (List Char × List Char) → List Char → List Char →
    List (List Char × List Char)
  | [], k, v => [(k, v)]
  | (k0, v0) :: rest, k, v =>
    if k0 = k then (k0, v) :: rest else (k0, v0) :: mapSet rest k v

/-- `m[k]` lookup. -/
def mapGet? : List (List Char × List Char) → List Char → Option (List Char)
  | [], _ => none
  | (k0, v0) :: rest, k => if k0 = k then some v0 else mapGet? rest k

/-- The path-parameter merge of `buildURL` (utils.go:29-35): copy the
client-level map, then overwrite with every request-level pair (request
wins on key collision). -/
def mergePathParams (client req : List (List Char × List Char)) :
    List (List Char × List Char) :=
  req.foldl (fun acc kv => mapSet acc kv.1 kv.2) client

/-- The substitution loop of `buildURL` (utils.go:37-40):
`finalURL = strings.ReplaceAll(finalURL, "{" + key + "}", value)` for
every merged pair; the Go map's unspecified iteration order becomes the
list order. -/
def substPathParams (s : List Char) (params : List (List Char × List Char)) :
    List Char :=
  params.foldl (fun acc kv => replaceAll acc ('{' :: kv.1 ++ ['}']) kv.2) s

/-- Neither brace occurs in `s`. -/
def braceFree (s : List Char) : Prop := '{' ∉ s ∧ '}' ∉ s

instance (s : List Char) : Decidable (braceFree s) := by
  unfold braceFree; infer_instance

-- step lemmas for the scan

theorem isPrefixOf_cons_of_ne (p c : Char) (ps cs : List Char) (h : p ≠ c) :
    (p :: ps).isPrefixOf (c :: cs) = false := by
  simp [List.isPrefixOf, h]

theorem replaceAllAux_skip (p : Char) (ps rep : List Char) :
    ∀ (s t : List Char), p ∉ s →
      replaceAllAux p ps rep (s ++ t) = s ++ replaceAllAux p ps rep t := by
  intro s
  induction s with
  | nil => intro t _; rfl
  | cons c s' ih =>
    intro t hs
    have hc : p ≠ c := fun h => hs (h ▸ List.mem_cons_self c s')
    rw [List.cons_append, replaceAllAux, isPrefixOf_cons_of_ne p c ps (s' ++ t) hc]
    simp only [Bool.false_eq_true, if_false]
    rw [ih t (fun h => hs (List.mem_cons_of_mem c h))]
    simp

theorem containsSubAux_skip (p : Char) (ps : List Char) :
    ∀ (s t : List Char), p ∉ s →
      containsSubAux p ps (s ++ t) = containsSubAux p ps t := by
  intro s
  induction s with
  | nil => intro t _; rfl
  | cons c s' ih =>
    intro t hs
    have hc : p ≠ c := fun h => hs (h ▸ List.mem_cons_self c s')
    rw [List.cons_append, containsSubAux, isPrefixOf_cons_of_ne p c ps (s' ++ t) hc]
    simp only [Bool.false_or]
    exact ih t (fun h => hs (List.mem_cons_of_mem c h))



/-- A close-brace-free word followed by a close brace determines itself:
if `k ++ ['}']` is a prefix of `j ++ '}' :: t` with `k, j` brace-free,
then `k = j`. -/
theorem prefix_closing_eq (t : List Char) :
    ∀ (k j : List Char), '}' ∉ k → '}' ∉ j →
      (k ++ ['}']).isPrefixOf (j ++ '}' :: t) = true → k = j := by
  intro k
  induction k with
  | nil =>
    intro j hk hj hpre
    cases j with
    | nil => rfl
    | cons c j' =>
      exfalso
      simp only [List.nil_append, List.cons_append, List.isPrefixOf] at hpre
      rcases Bool.and_eq_true .. |>.mp hpre with ⟨h1, _⟩
      have hc : ('}' : Char) = c := by simpa [beq_iff_eq] using h1
      refine hj ?_
      rw [← hc]
      exact List.mem_cons_self _ _
  | cons a k' ih =>
    intro j hk hj hpre
    cases j with
    | nil =>
      exfalso
      simp only [List.cons_append, List.nil_append, List.isPrefixOf] at hpre
      rcases Bool.and_eq_true .. |>.mp hpre with ⟨h1, _⟩
      have : a = '}' := by simpa [beq_iff_eq] using h1
      exact hk (this ▸ List.mem_cons_self a k')
    | cons c j' =>
      simp only [List.cons_append, List.isPrefixOf] at hpre
      rcases Bool.and_eq_true .. |>.mp hpre with ⟨h1, h2⟩
      have hac : a = c := by simpa [beq_iff_eq] using h1
      have hk' : '}' ∉ k' := fun h => hk (List.mem_cons_of_mem a h)
      have hj' : '}' ∉ j' := fun h => hj (List.mem_cons_of_mem c h)
      rw [hac, ih j' hk' hj' h2]

theorem isPrefixOf_append_self (x : List Char) :
    ∀ y z : List Char, (x ++ y).isPrefixOf (x ++ z) = y.isPrefixOf z := by
  induction x with
  | nil => intro y z; rfl
  | cons c x' ih => intro y z; simp [List.isPrefixOf, ih]

/-- Scanning a rendered placeholder of the searched key replaces it. -/
theorem replaceAllAux_match (k v t : List Char) :
    replaceAllAux '{' (k ++ ['}']) v ('{' :: (k ++ '}' :: t))
      = v ++ replaceAllAux '{' (k ++ ['}']) v t := by
  have hpre : ('{' :: (k ++ ['}'])).isPrefixOf ('{' :: (k ++ '}' :: t)) = true := by
    have h2 : k ++ '}' :: t = (k ++ ['}']) ++ t := by simp
    simp only [List.isPrefixOf, h2]
    simp [List.isPrefixOf_iff_prefix]
  rw [replaceAllAux, if_pos hpre]
  congr 1
  have hdrop : (k ++ '}' :: t).drop ((k ++ ['}']).length) = t := by
    have h2 : k ++ '}' :: t = (k ++ ['}']) ++ t := by simp
    rw [h2, List.drop_left]
  rw [hdrop]

/-- Scanning a rendered placeholder of a different key leaves it. -/
theorem replaceAllAux_nomatch (k v j t : List Char)
    (hne : j ≠ k) (hk : '}' ∉ k) (hj1 : '{' ∉ j) (hj2 : '}' ∉ j) :
    replaceAllAux '{' (k ++ ['}']) v ('{' :: (j ++ '}' :: t))
      = '{' :: (j ++ '}' :: replaceAllAux '{' (k ++ ['}']) v t) := by
  have hpre : ('{' :: (k ++ ['}'])).isPrefixOf ('{' :: (j ++ '}' :: t)) = false := by
    simp only [List.isPrefixOf]
    cases hp : (k ++ ['}']).isPrefixOf (j ++ '}' :: t) with
    | false => simp
    | true => exact absurd (prefix_closing_eq t k j hk hj2 hp) (fun h => hne h.symm)
  rw [replaceAllAux, hpre]
  simp only [Bool.false_eq_true, if_false]
  congr 1
  have hstep : j ++ '}' :: t = (j ++ ['}']) ++ t := by simp
  rw [hstep, replaceAllAux_skip '{' (k ++ ['}']) v (j ++ ['}']) t (by simp [hj1])]
  simp

/-- Contains-version of the match step. -/
theorem containsSubAux_match (k t : List Char) :
    containsSubAux '{' (k ++ ['}']) ('{' :: (k ++ '}' :: t)) = true := by
  have hpre : ('{' :: (k ++ ['}'])).isPrefixOf ('{' :: (k ++ '}' :: t)) = true := by
    have h2 : k ++ '}' :: t = (k ++ ['}']) ++ t := by simp
    simp only [List.isPrefixOf, h2]
    simp [List.isPrefixOf_iff_prefix]
  rw [containsSubAux, hpre]
  simp

/-- Contains-version of the no-match step. -/
theorem containsSubAux_nomatch (k j t : List Char)
    (hne : j ≠ k) (hk : '}' ∉ k) (hj1 : '{' ∉ j) (hj2 : '}' ∉ j) :
    containsSubAux '{' (k ++ ['}']) ('{' :: (j ++ '}' :: t))
      = containsSubAux '{' (k ++ ['}']) t := by
  have hpre : ('{' :: (k ++ ['}'])).isPrefixOf ('{' :: (j ++ '}' :: t)) = false := by
    simp only [List.isPrefixOf]
    cases hp : (k ++ ['}']).isPrefixOf (j ++ '}' :: t) with
    | false => simp
    | true => exact absurd (prefix_closing_eq t k j hk hj2 hp) (fun h => hne h.symm)
  rw [containsSubAux, hpre]
  simp only [Bool.false_or]
  have hstep : j ++ '}' :: t = (j ++ ['}']) ++ t := by simp
  rw [hstep, containsSubAux_skip '{' (k ++ ['}']) (j ++ ['}']) t (by simp [hj1])]



/-- URL-template tokens: brace-free literal runs and `{key}` placeholders. -/
inductive UTok where
  | lit (s : List Char)
  | ph (k : List Char)
  deriving DecidableEq, Repr

/-- Render a token list back into the URL string. -/
def renderToks : List UTok → List Char
  | [] => []
  | .lit s :: ts => s ++ renderToks ts
  | .ph k :: ts => '{' :: (k ++ '}' :: renderToks ts)

/-- Well-formed token: its own text carries no brace characters. -/
def wfTok : UTok → Prop
  | .lit s => braceFree s
  | .ph k => braceFree k

def wfToks (ts : List UTok) : Prop := ∀ t ∈ ts, wfTok t

/-- Token-level substitution of one key. -/
def substTok (ts : List UTok) (k v : List Char) : List UTok :=
  ts.map fun t => match t with
    | .ph j => if j = k then .lit v else .ph j
    | .lit s => .lit s

/-- Token-level substitution of a whole parameter list, in order. -/
def substAllToks (ts : List UTok) (params : List (List Char × List Char)) : List UTok :=
  params.foldl (fun acc kv => substTok acc kv.1 kv.2) ts

theorem replaceAllAux_render (k v : List Char) (hk : braceFree k) :
    ∀ ts, wfToks ts →
      replaceAllAux '{' (k ++ ['}']) v (renderToks ts)
        = renderToks (substTok ts k v) := by
  intro ts
  induction ts with
  | nil =>
    intro _
    simp only [renderToks, substTok, List.map_nil]
    rw [replaceAllAux]
  | cons t ts' ih =>
    intro hwf
    have hwft : wfTok t := hwf t (List.mem_cons_self t ts')
    have hwf' : wfToks ts' := fun u hu => hwf u (List.mem_cons_of_mem t hu)
    cases t with
    | lit s =>
      have hs : '{' ∉ s := hwft.1
      simp only [renderToks, substTok, List.map_cons]
      rw [replaceAllAux_skip '{' (k ++ ['}']) v s (renderToks ts') hs]
      rw [ih hwf']
      rfl
    | ph j =>
      by_cases hj : j = k
      · subst hj
        simp only [renderToks, substTok, List.map_cons, if_pos rfl]
        rw [replaceAllAux_match j v (renderToks ts'), ih hwf']
        rfl
      · simp only [renderToks, substTok, List.map_cons, if_neg hj]
        rw [replaceAllAux_nomatch k v j (renderToks ts') hj hk.2 hwft.1 hwft.2,
          ih hwf']
        rfl

theorem containsSubAux_render (k : List Char) (hk : braceFree k) :
    ∀ ts, wfToks ts →
      (containsSubAux '{' (k ++ ['}']) (renderToks ts) = true ↔ UTok.ph k ∈ ts) := by
  intro ts
  induction ts with
  | nil => intro _; simp [renderToks, containsSubAux]
  | cons t ts' ih =>
    intro hwf
    have hwft : wfTok t := hwf t (List.mem_cons_self t ts')
    have hwf' : wfToks ts' := fun u hu => hwf u (List.mem_cons_of_mem t hu)
    cases t with
    | lit s =>
      have hs : '{' ∉ s := hwft.1
      simp only [renderToks]
      rw [containsSubAux_skip '{' (k ++ ['}']) s (renderToks ts') hs]
      rw [ih hwf']
      simp
    | ph j =>
      by_cases hj : j = k
      · subst hj
        simp only [renderToks]
        rw [show (containsSubAux '{' (j ++ ['}']) ('{' :: (j ++ '}' :: renderToks ts'))) = true
          from containsSubAux_match j (renderToks ts')]
        simp
      · simp only [renderToks]
        rw [containsSubAux_nomatch k j (renderToks ts') hj hk.2 hwft.1 hwft.2]
        rw [ih hwf']
        simp [hj, Ne.symm]

theorem wfToks_substTok (ts : List UTok) (k v : List Char) (hv : braceFree v)
    (h : wfToks ts) : wfToks (substTok ts k v) := by
  intro t ht
  simp only [substTok, List.mem_map] at ht
  obtain ⟨t0, ht0, rfl⟩ := ht
  have := h t0 ht0
  cases t0 with
  | lit s => exact this
  | ph j =>
    dsimp only
    by_cases hj : j = k
    · rw [if_pos hj]; exact hv
    · rw [if_neg hj]; exact this

theorem mem_ph_substTok (ts : List UTok) (k v j : List Char) :
    UTok.ph j ∈ substTok ts k v → UTok.ph j ∈ ts ∧ j ≠ k := by
  intro h
  simp only [substTok, List.mem_map] at h
  obtain ⟨t0, ht0, heq⟩ := h
  cases t0 with
  | lit s => simp at heq
  | ph j0 =>
    dsimp only at heq
    by_cases hj : j0 = k
    · rw [if_pos hj] at heq; simp at heq
    · rw [if_neg hj] at heq
      have : j0 = j := by simpa using heq
      subst this
      exact ⟨ht0, hj⟩

theorem mem_ph_substTok_of (ts : List UTok) (k v j : List Char)
    (h : UTok.ph j ∈ ts) (hne : j ≠ k) : UTok.ph j ∈ substTok ts k v := by
  simp only [substTok, List.mem_map]
  exact ⟨.ph j, h, by dsimp only; rw [if_neg hne]⟩



theorem substPathParams_render (params : List (List Char × List Char))
    (hp : ∀ kv ∈ params, braceFree kv.1 ∧ braceFree kv.2) :
    ∀ ts, wfToks ts →
      substPathParams (renderToks ts) params = renderToks (substAllToks ts params) := by
  induction params with
  | nil => intro ts _; rfl
  | cons kv rest ih =>
    intro ts hts
    rcases kv with ⟨k, v⟩
    have hkv := hp (k, v) (List.mem_cons_self _ _)
    have hrest : ∀ kv ∈ rest, braceFree kv.1 ∧ braceFree kv.2 :=
      fun kv h => hp kv (List.mem_cons_of_mem _ h)
    have hstep : substPathParams (renderToks ts) ((k, v) :: rest)
        = substPathParams (replaceAllAux '{' (k ++ ['}']) v (renderToks ts)) rest := rfl
    rw [hstep, replaceAllAux_render k v hkv.1 ts hts]
    have hstep2 : substAllToks ts ((k, v) :: rest)
        = substAllToks (substTok ts k v) rest := rfl
    rw [hstep2]
    exact ih hrest (substTok ts k v) (wfToks_substTok ts k v hkv.2 hts)

theorem wfToks_substAllToks (params : List (List Char × List Char))
    (hp : ∀ kv ∈ params, braceFree kv.2) :
    ∀ ts, wfToks ts → wfToks (substAllToks ts params) := by
  induction params with
  | nil => intro ts h; exact h
  | cons kv rest ih =>
    intro ts hts
    rcases kv with ⟨k, v⟩
    exact ih (fun kv h => hp kv (List.mem_cons_of_mem _ h)) (substTok ts k v)
      (wfToks_substTok ts k v (hp (k, v) (List.mem_cons_self _ _)) hts)

theorem mem_ph_substAllToks (params : List (List Char × List Char)) :
    ∀ ts j, UTok.ph j ∈ substAllToks ts params →
      UTok.ph j ∈ ts ∧ ∀ kv ∈ params, j ≠ kv.1 := by
  induction params with
  | nil => intro ts j h; exact ⟨h, fun kv hkv => absurd hkv (List.not_mem_nil kv)⟩
  | cons kv rest ih =>
    intro ts j h
    rcases kv with ⟨k, v⟩
    obtain ⟨h1, h2⟩ := ih (substTok ts k v) j h
    obtain ⟨h3, h4⟩ := mem_ph_substTok ts k v j h1
    refine ⟨h3, fun kv hkv => ?_⟩
    rcases List.mem_cons.mp hkv with rfl | hkv
    · exact h4
    · exact h2 kv hkv

theorem mem_ph_substAllToks_of (params : List (List Char × List Char)) :
    ∀ ts j, UTok.ph j ∈ ts → (∀ kv ∈ params, j ≠ kv.1) →
      UTok.ph j ∈ substAllToks ts params := by
  induction params with
  | nil => intro ts j h _; exact h
  | cons kv rest ih =>
    intro ts j h hne
    rcases kv with ⟨k, v⟩
    exact ih (substTok ts k v) j
      (mem_ph_substTok_of ts k v j h (hne (k, v) (List.mem_cons_self _ _)))
      (fun kv hkv => hne kv (List.mem_cons_of_mem _ hkv))

theorem mem_mapSet (m : List (List Char × List Char)) (k v : List Char) :
    ∀ kv, kv ∈ mapSet m k v → kv ∈ m ∨ kv = (k, v) := by
  induction m with
  | nil => intro kv h; simp [mapSet] at h; exact Or.inr h
  | cons kv0 rest ih =>
    intro kv h
    rcases kv0 with ⟨k0, v0⟩
    by_cases h0 : k0 = k
    · rw [mapSet, if_pos h0] at h
      rcases List.mem_cons.mp h with rfl | h
      · exact Or.inr (by rw [h0])
      · exact Or.inl (List.mem_cons_of_mem _ h)
    · rw [mapSet, if_neg h0] at h
      rcases List.mem_cons.mp h with rfl | h
      · exact Or.inl (List.mem_cons_self _ _)
      · rcases ih kv h with h | h
        · exact Or.inl (List.mem_cons_of_mem _ h)
        · exact Or.inr h

theorem mem_mergePathParams (req : List (List Char × List Char)) :
    ∀ client kv, kv ∈ mergePathParams client req → kv ∈ client ∨ kv ∈ req := by
  induction req with
  | nil => intro client kv h; exact Or.inl h
  | cons kv0 rest ih =>
    intro client kv h
    rcases kv0 with ⟨k0, v0⟩
    have hstep : mergePathParams client ((k0, v0) :: rest)
        = mergePathParams (mapSet client k0 v0) rest := rfl
    rw [hstep] at h
    rcases ih (mapSet client k0 v0) kv h with h | h
    · rcases mem_mapSet client k0 v0 kv h with h | h
      · exact Or.inl h
      · exact Or.inr (h ▸ List.mem_cons_self _ _)
    · exact Or.inr (List.mem_cons_of_mem _ h)

theorem mapGet?_mapSet_same (k v : List Char) :
    ∀ m, mapGet? (mapSet m k v) k = some v := by
  intro m
  induction m with
  | nil => simp [mapSet, mapGet?]
  | cons kv0 rest ih =>
    rcases kv0 with ⟨k0, v0⟩
    by_cases h0 : k0 = k
    · rw [mapSet, if_pos h0, mapGet?, if_pos h0]
    · rw [mapSet, if_neg h0, mapGet?, if_neg h0]
      exact ih

theorem mapGet?_foldl_not_mem (rest : List (List Char × List Char)) :
    ∀ m k, k ∉ rest.map Prod.fst →
      mapGet? (rest.foldl (fun acc kv => mapSet acc kv.1 kv.2) m) k = mapGet? m k := by
  induction rest with
  | nil => intro m k _; rfl
  | cons kv0 rest ih =>
    intro m k hk
    rcases kv0 with ⟨k0, v0⟩
    simp only [List.map_cons, List.mem_cons] at hk
    push_neg at hk
    have hstep : ((k0, v0) :: rest).foldl (fun acc kv => mapSet acc kv.1 kv.2) m
        = rest.foldl (fun acc kv => mapSet acc kv.1 kv.2) (mapSet m k0 v0) := rfl
    rw [hstep, ih (mapSet m k0 v0) k hk.2]
    -- mapGet? (mapSet m k0 v0) k = mapGet? m k since k ≠ k0
    clear hstep ih
    induction m with
    | nil =>
      simp only [mapSet, mapGet?]
      rw [if_neg (fun h : k0 = k => hk.1 h.symm)]
    | cons kv1 rest1 ih1 =>
      rcases kv1 with ⟨k1, v1⟩
      by_cases h1 : k1 = k0
      · rw [mapSet, if_pos h1, mapGet?, mapGet?]
        rw [if_neg (fun hh : k1 = k => hk.1 (by rw [← hh, h1]))]
        rw [if_neg (fun hh : k1 = k => hk.1 (by rw [← hh, h1]))]
      · rw [mapSet, if_neg h1, mapGet?, mapGet?]
        by_cases h2 : k1 = k
        · rw [if_pos h2, if_pos h2]
        · rw [if_neg h2, if_neg h2]
          exact ih1

theorem mergePathParams_req_wins (req : List (List Char × List Char))
    (hnd : (req.map Prod.fst).Nodup) :
    ∀ client k v, mapGet? req k = some v →
      mapGet? (mergePathParams client req) k = some v := by
  induction req with
  | nil => intro client k v h; simp [mapGet?] at h
  | cons kv0 rest ih =>
    intro client k v h
    rcases kv0 with ⟨k0, v0⟩
    simp only [List.map_cons, List.nodup_cons] at hnd
    have hstep : mergePathParams client ((k0, v0) :: rest)
        = mergePathParams (mapSet client k0 v0) rest := rfl
    rw [hstep]
    by_cases h0 : k0 = k
    · subst h0
      rw [mapGet?, if_pos rfl] at h
      have hv : v0 = v := by simpa using h
      subst hv
      unfold mergePathParams
      rw [mapGet?_foldl_not_mem rest (mapSet client k0 v0) k0 hnd.1]
      exact mapGet?_mapSet_same k0 v0 client
    · rw [mapGet?, if_neg h0] at h
      exact ih hnd.2 (mapSet client k0 v0) k v h



instance (t : UTok) : Decidable (wfTok t) := by
  cases t <;> (unfold wfTok; infer_instance)

instance (ts : List UTok) : Decidable (wfToks ts) := by
  unfold wfToks; infer_instance

/-- C7 counterexample: URL template "{a}" with the request-level path
parameter a = "{a}" (value inserted verbatim, utils.go:37-40).  The
substituted URL still contains the placeholder "{a}" although key "a"
was supplied. -/
theorem claim_C7_counterexample :
    mergePathParams [] [(['a'], ['{', 'a', '}'])] = [(['a'], ['{', 'a', '}'])] ∧
    substPathParams ['{', 'a', '}'] (mergePathParams [] [(['a'], ['{', 'a', '}'])])
      = ['{', 'a', '}'] ∧
    containsSub ['{', 'a', '}'] ('{' :: ['a'] ++ ['}']) = true := by
  refine ⟨rfl, ?_, by decide⟩
  show replaceAllAux '{' (['a'] ++ ['}']) ['{', 'a', '}']
    ('{' :: (['a'] ++ '}' :: [])) = ['{', 'a', '}']
  rw [replaceAllAux_match ['a'] ['{', 'a', '}'] []]
  simp only [replaceAllAux]
  simp

/-- C7 (amended): for URL templates that alternate brace-free literals
with `{key}` placeholders, and brace-free path-parameter keys and values,
the built URL contains no placeholder of any key supplied at either
level; request-level values win on key collision; and a placeholder whose
key is supplied at neither level survives verbatim. -/
theorem claim_C7 (client req : List (List Char × List Char)) (ts : List UTok)
    (hts : wfToks ts)
    (hc : ∀ kv ∈ client, braceFree kv.1 ∧ braceFree kv.2)
    (hr : ∀ kv ∈ req, braceFree kv.1 ∧ braceFree kv.2)
    (hnd : (req.map Prod.fst).Nodup) :
    (∀ k, k ∈ (mergePathParams client req).map Prod.fst →
       containsSub (substPathParams (renderToks ts) (mergePathParams client req))
         ('{' :: k ++ ['}']) = false) ∧
    (∀ k v, mapGet? req k = some v →
       mapGet? (mergePathParams client req) k = some v) ∧
    (∀ j, UTok.ph j ∈ ts → j ∉ (mergePathParams client req).map Prod.fst →
       containsSub (substPathParams (renderToks ts) (mergePathParams client req))
         ('{' :: j ++ ['}']) = true) := by
  have hmp : ∀ kv ∈ mergePathParams client req, braceFree kv.1 ∧ braceFree kv.2 :=
    fun kv h => (mem_mergePathParams req client kv h).elim (hc kv) (hr kv)
  have hrender := substPathParams_render (mergePathParams client req) hmp ts hts
  have hwf2 := wfToks_substAllToks (mergePathParams client req)
    (fun kv h => (hmp kv h).2) ts hts
  refine ⟨?_, mergePathParams_req_wins req hnd client, ?_⟩
  · intro k hk
    obtain ⟨kv, hkv, rfl⟩ := List.mem_map.mp hk
    have hbk : braceFree kv.1 := (hmp kv hkv).1
    show containsSubAux '{' (kv.1 ++ ['}'])
      (substPathParams (renderToks ts) (mergePathParams client req)) = false
    rw [hrender]
    cases hval : containsSubAux '{' (kv.1 ++ ['}'])
        (renderToks (substAllToks ts (mergePathParams client req))) with
    | false => rfl
    | true =>
      exfalso
      have hmem := (containsSubAux_render kv.1 hbk _ hwf2).mp hval
      obtain ⟨_, hall⟩ := mem_ph_substAllToks (mergePathParams client req) ts kv.1 hmem
      exact hall kv hkv rfl
  · intro j hj hnotin
    have hbj : braceFree j := hts (.ph j) hj
    show containsSubAux '{' (j ++ ['}'])
      (substPathParams (renderToks ts) (mergePathParams client req)) = true
    rw [hrender]
    refine (containsSubAux_render j hbj _ hwf2).mpr ?_
    refine mem_ph_substAllToks_of (mergePathParams client req) ts j hj ?_
    intro kv hkv heq
    exact hnotin (heq ▸ List.mem_map_of_mem Prod.fst hkv)

/-- C7 witness: template "x{a}/{z}", client param c = "C", request param
a = "A": the placeholder of supplied key "a" is gone, the request value
is what the merged map holds, and the unsupplied placeholder "{z}"
survives. -/
theorem claim_C7_witness :
    containsSub
      (substPathParams (renderToks [.lit ['x'], .ph ['a'], .lit ['/'], .ph ['z']])
        (mergePathParams [(['c'], ['C'])] [(['a'], ['A'])]))
      ('{' :: ['a'] ++ ['}']) = false ∧
    mapGet? (mergePathParams [(['c'], ['C'])] [(['a'], ['A'])]) ['a'] = some ['A'] ∧
    containsSub
      (substPathParams (renderToks [.lit ['x'], .ph ['a'], .lit ['/'], .ph ['z']])
        (mergePathParams [(['c'], ['C'])] [(['a'], ['A'])]))
      ('{' :: ['z'] ++ ['}']) = true := by
  have h := claim_C7 [(['c'], ['C'])] [(['a'], ['A'])]
    [.lit ['x'], .ph ['a'], .lit ['/'], .ph ['z']]
    (by decide) (by decide) (by decide) (by decide)
  exact ⟨h.1 ['a'] (by decide), h.2.1 ['a'] ['A'] (by decide),
    h.2.2 ['z'] (by decide) (by decide)⟩

end Cumi
